import Mathlib

/-!
Shallow embedding of the build-decision engine of `smart-docker-build`
(source: `src/lib.ts`, the current implementation, with the earlier
`src/internal/get/lib.ts` variant embedded separately where the two differ).

Thrown JavaScript errors are modelled as `Except String`; the external
collaborators (GitHub compare API, container-registry API, the file system)
are abstracted as explicit inputs carrying the results the real calls
would produce.
-/

namespace SDB

instance {ε α : Type} [DecidableEq ε] [DecidableEq α] : DecidableEq (Except ε α) := fun a b =>
  match a, b with
  | .error e1, .error e2 =>
    match decEq e1 e2 with
    | isTrue h => isTrue (h ▸ rfl)
    | isFalse h => isFalse (fun hab => h (Except.error.inj hab))
  | .ok a1, .ok a2 =>
    match decEq a1 a2 with
    | isTrue h => isTrue (h ▸ rfl)
    | isFalse h => isFalse (fun hab => h (Except.ok.inj hab))
  | .error _, .ok _ => isFalse (fun hab => Except.noConfusion hab)
  | .ok _, .error _ => isFalse (fun hab => Except.noConfusion hab)

/-- JavaScript truthiness of an optional string: `undefined`/`null` and the
empty string are falsy, every other string is truthy. -/
def jsTruthy : Option String → Bool
  | none => false
  | some s => !s.isEmpty

/-- JS `String.prototype.trim`: strip leading and trailing whitespace
(the common ASCII whitespace characters). -/
def jsTrim (s : String) : String :=
  String.mk (((s.data.dropWhile Char.isWhitespace).reverse.dropWhile Char.isWhitespace).reverse)

/-- Left operand wins in JS `a || b` for strings exactly when it is a
defined, non-empty string. Mirrors `dockerfileConfig.imageName || repository.name`. -/
def jsOrName (a : Option String) (fallback : String) : String :=
  match a with
  | some s => if s.isEmpty then fallback else s
  | none => fallback

/-- A word character in the sense of the JS regex `\w`. -/
def isWordChar (c : Char) : Bool :=
  c.isAlpha || c.isDigit || c = '_'

/-- Fuel-driven scanner for the JS regex `/\x7b(\w+)\x7d/g`: at a literal
open brace, a maximal nonempty run of word characters followed by a close
brace is a match and scanning resumes after it; otherwise scanning resumes
at the next character, exactly as the regex engine retries at the next
index. The fuel only makes the recursion structural; `tokensOf` supplies
enough of it. -/
def tokensF : Nat → List Char → List String
  | _, [] => []
  | 0, _ => []
  | Nat.succ fuel, c :: rest =>
    if c = '\x7b' then
      let w := rest.takeWhile isWordChar
      match rest.drop w.length with
      | d :: rest2 =>
        if d = '\x7d' && !w.isEmpty then
          String.mk w :: tokensF fuel rest2
        else
          tokensF fuel rest
      | [] => tokensF fuel rest
    else tokensF fuel rest

/-- All tokens captured by scanning a string with the JS regex
`/\x7b(\w+)\x7d/g`, left to right, non-overlapping, as in
`validateTemplateVariables` (src/lib.ts:530-543). -/
def tokensOf (l : List Char) : List String :=
  tokensF l.length l

/-- One step of the missing-variable accumulation in
`validateTemplateVariables`: record an undeclared name unless already seen. -/
def pushMissing (avail : List String) (acc : List String) (v : String) : List String :=
  if avail.contains v then acc
  else if acc.contains v then acc
  else acc ++ [v]

/-- The `missingVariables` list `validateTemplateVariables` builds over all
templates (src/lib.ts:531-543): every `\x7bname\x7d` token whose name is not
available, first-occurrence order, no duplicates. -/
def collectMissing (templates avail : List String) : List String :=
  templates.foldl (fun acc t => (tokensOf t.data).foldl (pushMissing avail) acc) []

/-- The error message of `validateTemplateVariables`
(`Invalid template variables found: \x7ba\x7d, \x7bb\x7d`). -/
def invalidTemplateMsg (missing : List String) : String :=
  "Invalid template variables found: \x7b" ++ String.intercalate "\x7d, \x7b" missing ++ "\x7d"

/-- `validateTemplateVariables` (src/lib.ts:526-550): throws one aggregated
error when any template references an unavailable variable. -/
def validateTemplateVariables (templates avail : List String) : Except String Unit :=
  let missing := collectMissing templates avail
  if missing.isEmpty then .ok () else .error (invalidTemplateMsg missing)

/-- Every `\x7bname\x7d` token of every template, in template order. -/
def allTokens (templates : List String) : List String :=
  (templates.map (fun t => tokensOf t.data)).flatten

/-- The allowed template variables (src/lib.ts:98-103). -/
def availableVariables : List String := ["tag", "branch", "sha", "timestamp"]

/-- The guarded validation call of `generateBuildArgs` (src/lib.ts:104-115):
a tag configuration is validated unless it is the explicit `null`. -/
def validateTagCfg (cfg : Option (List String)) : Except String Unit :=
  match cfg with
  | some ts => validateTemplateVariables ts availableVariables
  | none => .ok ()

/-- `TemplateVariables` (src/lib.ts:44-49): each field optional. -/
structure TemplateVariables where
  tag : Option String := none
  branch : Option String := none
  sha : Option String := none
  timestamp : Option String := none
deriving DecidableEq, Repr

/-- `Object.entries(variables)` in JS insertion order: `createTemplateVariables`
assigns `sha` first, then `branch`, `tag`, `timestamp` when present
(src/lib.ts:567-591). -/
def varEntries (v : TemplateVariables) : List (String × String) :=
  (match v.sha with | some s => [("sha", s)] | none => [])
    ++ (match v.branch with | some s => [("branch", s)] | none => [])
    ++ (match v.tag with | some s => [("tag", s)] | none => [])
    ++ (match v.timestamp with | some s => [("timestamp", s)] | none => [])

/-- Fuel-driven worker for JS `String.prototype.split` with a non-empty
string separator, over char lists: scan left to right, cut at each
non-overlapping occurrence. The fuel only makes the recursion structural;
`jsSplitL` supplies enough of it. -/
def jsSplitF (sep : List Char) : Nat → List Char → List (List Char)
  | _, [] => [[]]
  | 0, l => [l]
  | Nat.succ fuel, c :: rest =>
    if sep ≠ [] && sep.isPrefixOf (c :: rest) then
      [] :: jsSplitF sep fuel ((c :: rest).drop sep.length)
    else
      match jsSplitF sep fuel rest with
      | [] => [[c]]
      | h :: t => (c :: h) :: t

/-- JS `String.prototype.split` with a non-empty string separator. -/
def jsSplitL (sep l : List Char) : List (List Char) :=
  jsSplitF sep l.length l

/-- JS `String.prototype.split` lifted back to strings (see `jsSplitL`). -/
def jsSplit (sep s : String) : List String :=
  (jsSplitL sep.data s.data).map String.mk

/-- Replace every occurrence of the literal pattern `pat`, scanning left to
right without overlap, as JS global regex replacement of a literal pattern
does; equal to `split(pat).join(repl)`. -/
def jsReplaceAll (s pat repl : String) : String :=
  String.mk (List.intercalate repl.data (jsSplitL pat.data s.data))

/-- `result.replace(new RegExp(..., g), value)` for the literal pattern
`\x7bkey\x7d`: replace all occurrences. -/
def applyVar (r : String) (kv : String × String) : String :=
  jsReplaceAll r ("\x7b" ++ kv.1 ++ "\x7d") kv.2

/-- `generateTags` (src/lib.ts:553-564). -/
def generateTags (templates : List String) (vars : TemplateVariables) : List String :=
  templates.map (fun t => (varEntries vars).foldl applyVar t)

/-- `createTemplateVariables` (src/lib.ts:567-591). The rendered timestamp
string (`format(toZonedTime(now, timezone), yyyyMMddHHmm)`) is supplied as an
input, since it depends on the wall clock. -/
def createTemplateVariables (branch tag : Option String) (timezone : String)
    (sha : String) (timestampStr : String) : TemplateVariables :=
  { sha := some (sha.take 7)
    branch := if jsTruthy branch then branch else none
    tag := if jsTruthy tag then tag else none
    timestamp := if !timezone.isEmpty then some timestampStr else none }

/-- `GitRef` (src/lib.ts:51-54). -/
structure GitRef where
  branch : Option String
  tag : Option String
deriving DecidableEq, Repr

/-- `parseGitRef` (src/lib.ts:495-508). JS `ref.replace(p, )` removes the
first occurrence of `p`; under the `startsWith` guard the first occurrence is
the leading one, so it equals dropping the prefix length
(11 = length of `refs/heads/`, 10 = length of `refs/tags/`). -/
def parseGitRef (ref : String) : Except String GitRef :=
  if "refs/heads/".data.isPrefixOf ref.data then
    .ok { branch := some (ref.drop 11), tag := none }
  else if "refs/tags/".data.isPrefixOf ref.data then
    .ok { branch := none, tag := some (ref.drop 10) }
  else
    .error ("Unsupported ref: " ++ ref)

/-- The registry-package name `checkImageTagExists` queries
(src/lib.ts:453-455): the part after the last slash when the image name
contains one, the whole name otherwise (`split('/').pop()`). -/
def packageNameL (s : List Char) : List Char :=
  if s.contains '/' then (jsSplitL ['/'] s).getLastD [] else s

/-- String-level wrapper for `packageNameL`. -/
def packageName (s : String) : String :=
  String.mk (packageNameL s.data)

/-- One registry package version: its container tag list, or `none` when the
`metadata?.container?.tags` chain is absent. -/
abbrev RegistryVersions := List (Option (List String))

/-- The registry listing endpoint, keyed by package name; `Except.error`
models a failed HTTP request (404, network error, authorization error, ...). -/
abbrev Registry := String → Except String RegistryVersions

/-- `version.metadata?.container?.tags?.includes(tag)` with optional
chaining: an absent tag list is falsy. -/
def versionHasTag (tag : String) (v : Option (List String)) : Bool :=
  match v with
  | some tags => tags.contains tag
  | none => false

/-- `checkImageTagExists` (src/lib.ts:446-468): no try/catch, so a failing
registry request propagates as the function result. -/
def checkImageTagExists (reg : Registry) (imageName tag : String) : Except String Bool :=
  match reg (packageName imageName) with
  | .error e => .error e
  | .ok versions => .ok (versions.any (versionHasTag tag))

/-- The earlier variant `checkImageTagExists`
(src/internal/get/lib.ts:844-872): the whole body is wrapped in try/catch and
every failure is reported as `false`. -/
def checkImageTagExistsCaught (reg : Registry) (imageName tag : String) : Bool :=
  match reg (packageName imageName) with
  | .error _ => false
  | .ok versions => versions.any (versionHasTag tag)

/-- Single-quote character, used in thrown messages. -/
def sq : String := String.mk [Char.ofNat 39]

/-- The collision message of `ensureUniqueTag`
(src/lib.ts:488-490): names the offending image:tag pair. -/
def tagExistsMsg (imageName tag : String) : String :=
  "Image tag " ++ sq ++ imageName ++ ":" ++ tag ++ sq ++ " already exists in registry"

/-- The per-tag loop of `ensureUniqueTag` (src/lib.ts:481-492): skip the
literal `latest`, otherwise query the registry and fail on an existing tag. -/
def checkTagsLoop (reg : Registry) (imageName : String) : List String → Except String Unit
  | [] => .ok ()
  | t :: rest =>
    if t = "latest" then checkTagsLoop reg imageName rest
    else
      match checkImageTagExists reg imageName t with
      | .error e => .error e
      | .ok true => .error (tagExistsMsg imageName t)
      | .ok false => checkTagsLoop reg imageName rest

/-- `ensureUniqueTag` (src/lib.ts:471-493). -/
def ensureUniqueTag (tags : List String) (vars : TemplateVariables)
    (reg : Registry) (imageName : String) : Except String Unit :=
  checkTagsLoop reg imageName (generateTags tags vars)

/-- JS `a.includes(b)` for strings, over char lists. -/
def jsIncludes (hay needle : List Char) : Bool :=
  decide (needle <:+: hay)

/-- `matchesPattern` (src/lib.ts:599-644), over char lists, branch for
branch: exact match, literal star, root-level extension, the recursive
double-star branch (guarded by containment of the four-character sequence
star-star-slash-star), the single-level slash-star branch, and the exact
fallback. -/
def matchesPatternL (filename pat : List Char) : Bool :=
  if pat = filename then true
  else if pat = ['*'] then true
  else if ['*', '.'].isPrefixOf pat then
    let ext := pat.drop 2
    ('.' :: ext).isSuffixOf filename && !filename.contains '/'
  else if jsIncludes pat ['*', '*', '/', '*'] then
    let parts := jsSplitL ['*', '*', '/'] pat
    let pre := parts.getD 0 []
    let suf := parts.getD 1 []
    if !pre.isPrefixOf filename then false
    else if suf = ['*'] then true
    else if ['*', '.'].isPrefixOf suf then
      ('.' :: suf.drop 2).isSuffixOf filename
    else
      suf.isSuffixOf filename
  else if jsIncludes pat ['/', '*'] && !jsIncludes pat ['*', '*'] then
    let parts := jsSplitL ['/', '*'] pat
    let pre := parts.getD 0 [] ++ ['/']
    let suf := parts.getD 1 []
    let afterPre := filename.drop pre.length
    pre.isPrefixOf filename && !afterPre.contains '/' &&
      (suf = ['*'] || suf.isSuffixOf afterPre)
  else
    filename = pat

/-- String-level wrapper for `matchesPatternL`. -/
def matchesPattern (filename pat : String) : Bool :=
  matchesPatternL filename.data pat.data

/-- `isBuildRequired` (src/lib.ts:510-523): empty watch list means always
build, otherwise any changed filename matching any pattern. -/
def isBuildRequired (watchFiles : List String) (changedFiles : List String) : Bool :=
  if watchFiles.isEmpty then true
  else changedFiles.any (fun f => watchFiles.any (fun p => matchesPattern f p))

/-- `ProjectConfig` (src/lib.ts:11-15): `none` on a tag field is the explicit
`null` that disables the trigger. -/
structure ProjectConfig where
  imageTagsOnTagPushed : Option (List String)
  imageTagsOnBranchPushed : Option (List String)
  watchFiles : List String
deriving DecidableEq, Repr

/-- `DockerfileConfig` (src/lib.ts:19-24): the outer `Option` is
defined-vs-undefined, the inner `Option` on tag fields is array-vs-`null`. -/
structure DockerfileConfig where
  imageName : Option String := none
  imageTagsOnTagPushed : Option (Option (List String)) := none
  imageTagsOnBranchPushed : Option (Option (List String)) := none
  watchFiles : Option (List String) := none
deriving DecidableEq, Repr

/-- `ImageBuildSpec` (src/lib.ts:28-34). -/
structure ImageBuildSpec where
  dockerfilePath : String
  imageName : String
  imageTagsOnTagPushed : Option (List String)
  imageTagsOnBranchPushed : Option (List String)
  watchFiles : List String
deriving DecidableEq, Repr

/-- `ActionResult` (src/lib.ts:38-42): one emitted build instruction. -/
structure ActionResult where
  dockerfilePath : String
  imageName : String
  imageTag : String
deriving DecidableEq, Repr

/-- `resolveConfig` (src/lib.ts:594-596):
`dockerfileValue !== undefined ? dockerfileValue : projectValue`. -/
def resolveConfig {α : Type} (dockerfileValue : Option α) (projectValue : α) : α :=
  match dockerfileValue with
  | some v => v
  | none => projectValue

/-- Construction of one `ImageBuildSpec` from a Dockerfile path, the resolved
image name, the Dockerfile directives and the project config, as written
inline in `generateBuildArgs` (src/lib.ts:156-171 and 189-204). -/
def mkSpec (path : String) (name : String) (dcfg : DockerfileConfig)
    (pcfg : ProjectConfig) : ImageBuildSpec :=
  { dockerfilePath := path
    imageName := name
    imageTagsOnTagPushed := resolveConfig dcfg.imageTagsOnTagPushed pcfg.imageTagsOnTagPushed
    imageTagsOnBranchPushed := resolveConfig dcfg.imageTagsOnBranchPushed pcfg.imageTagsOnBranchPushed
    watchFiles := resolveConfig dcfg.watchFiles pcfg.watchFiles }

/-- Repository identity from the event payload. -/
structure RepoInfo where
  name : String
  owner : String
deriving DecidableEq, Repr

/-- The abstract inputs of one `generateBuildArgs` run: the action inputs,
the event payload fields, and the results the external calls (config load,
commit compare, Dockerfile discovery, directive extraction, registry
listing) would produce. -/
structure Env where
  token : String
  timezone : String
  repository : Option RepoInfo
  before : Option String
  after : Option String
  ref : Option String
  projectConfig : Except String ProjectConfig
  compare : Except String (List String)
  dockerfiles : Except String (List String)
  extractCfg : String → Except String DockerfileConfig
  registry : Registry
  timestampStr : String

/-- Everything `generateBuildArgs` has computed when it reaches its per-image
loop (src/lib.ts:217). -/
structure PrepState where
  branch : Option String
  tag : Option String
  changedFiles : List String
  vars : TemplateVariables
  specs : List ImageBuildSpec
  registry : Registry

/-- Message thrown when required GitHub context is missing (src/lib.ts:121-125). -/
def missingContextMsg : String :=
  "Missing required GitHub context information (repository, before, after, ref)"

/-- Message thrown when discovery finds no Dockerfile (src/lib.ts:147). -/
def noDockerfilesMsg : String :=
  "❌ No Dockerfiles found in the repository"

/-- Message thrown for a Dockerfile without an image name when several
Dockerfiles exist (src/lib.ts:181-186). -/
def missingImageNameMsg (p : String) : String :=
  "❌ Multiple Dockerfiles found but no image name specified for " ++ p ++
    "\n💡 Solutions:\n   - Add comment: # image: my-image-name\n" ++
    "   - Create smart-docker-build.yml with explicit image configurations"

/-- The multi-Dockerfile spec-construction loop (src/lib.ts:174-205): every
Dockerfile must carry a truthy image-name directive. -/
def buildSpecsMulti (extract : String → Except String DockerfileConfig)
    (pcfg : ProjectConfig) : List String → Except String (List ImageBuildSpec)
  | [] => .ok []
  | p :: rest =>
    match extract p with
    | .error e => .error e
    | .ok dcfg =>
      if !jsTruthy dcfg.imageName then .error (missingImageNameMsg p)
      else
        match buildSpecsMulti extract pcfg rest with
        | .error e => .error e
        | .ok specs => .ok (mkSpec p (dcfg.imageName.getD "") dcfg pcfg :: specs)

/-- The part of `generateBuildArgs` before the per-image loop
(src/lib.ts:88-215), in source order: token check, project-config load,
pre-flight template validation of the project templates, context check, ref
parsing, commit compare, Dockerfile discovery, spec construction, template
variables. The single-Dockerfile case (length 1, src/lib.ts:152) is the
singleton-list match. -/
def prepare (env : Env) : Except String PrepState :=
  if env.token.isEmpty || (jsTrim env.token).isEmpty then
    .error "Token is required but not provided"
  else
    match env.projectConfig with
    | .error e => .error e
    | .ok pcfg =>
      match validateTagCfg pcfg.imageTagsOnTagPushed with
      | .error e => .error e
      | .ok () =>
        match validateTagCfg pcfg.imageTagsOnBranchPushed with
        | .error e => .error e
        | .ok () =>
          match env.repository with
          | none => .error missingContextMsg
          | some repo =>
            if !(jsTruthy env.before && jsTruthy env.after && jsTruthy env.ref) then
              .error missingContextMsg
            else
              match parseGitRef (env.ref.getD "") with
              | .error e => .error e
              | .ok gref =>
                match env.compare with
                | .error e => .error e
                | .ok changedFiles =>
                  match env.dockerfiles with
                  | .error e => .error e
                  | .ok dfs =>
                    if dfs.isEmpty then .error noDockerfilesMsg
                    else
                      match ((match dfs with
                              | [d] =>
                                (match env.extractCfg d with
                                 | .error e => .error e
                                 | .ok dcfg =>
                                   .ok [mkSpec d (jsOrName dcfg.imageName repo.name) dcfg pcfg])
                              | _ => buildSpecsMulti env.extractCfg pcfg dfs :
                                Except String (List ImageBuildSpec))) with
                      | .error e => .error e
                      | .ok specs =>
                        .ok { branch := gref.branch
                              tag := gref.tag
                              changedFiles := changedFiles
                              vars := createTemplateVariables gref.branch gref.tag
                                        env.timezone (env.after.getD "") env.timestampStr
                              specs := specs
                              registry := env.registry }

/-- The body of the per-image loop of `generateBuildArgs`
(src/lib.ts:217-262) for one spec: the instructions that image contributes,
or the error that aborts the run. -/
def specStep (st : PrepState) (spec : ImageBuildSpec) : Except String (List ActionResult) :=
  if jsTruthy st.tag && spec.imageTagsOnTagPushed.isSome then
    let tmpl := spec.imageTagsOnTagPushed.getD []
    match ensureUniqueTag tmpl st.vars st.registry spec.imageName with
    | .error e => .error e
    | .ok () =>
      .ok ((generateTags tmpl st.vars).map
        (fun tn => { dockerfilePath := spec.dockerfilePath
                     imageName := spec.imageName
                     imageTag := tn }))
  else if jsTruthy st.branch && spec.imageTagsOnBranchPushed.isSome then
    if isBuildRequired spec.watchFiles st.changedFiles then
      let tmpl := spec.imageTagsOnBranchPushed.getD []
      match ensureUniqueTag tmpl st.vars st.registry spec.imageName with
      | .error e => .error e
      | .ok () =>
        .ok ((generateTags tmpl st.vars).map
          (fun tn => { dockerfilePath := spec.dockerfilePath
                       imageName := spec.imageName
                       imageTag := tn }))
    else .ok []
  else .ok []

/-- The per-image loop of `generateBuildArgs` (src/lib.ts:217-262): process
the specs in order, appending the emitted instructions; the first thrown
error aborts the whole loop. -/
def runSpecs (st : PrepState) : List ImageBuildSpec → Except String (List ActionResult)
  | [] => .ok []
  | s :: rest =>
    match specStep st s with
    | .error e => .error e
    | .ok out =>
      match runSpecs st rest with
      | .error e => .error e
      | .ok out2 => .ok (out ++ out2)

/-- `generateBuildArgs` (src/lib.ts:82-265): the whole run. A thrown error
anywhere rejects the promise; the caller sees either the full instruction
list or a single error, never both. -/
def generateBuildArgs (env : Env) : Except String (List ActionResult) :=
  match prepare env with
  | .error e => .error e
  | .ok st => runSpecs st st.specs

/-- A file-system entry for the discovery walk: a plain file, or a directory
with a readability flag (readable = `readdir` succeeds) and children. -/
inductive FSEntry where
  | file (name : String)
  | dir (name : String) (readable : Bool) (children : List FSEntry)

/-- Directory names skipped by discovery (src/lib.ts:303). -/
def skipDirs : List String := ["node_modules", ".git", ".github", "dist", "build"]

/-- A discovered filename: exactly `Dockerfile` or starting with
`Dockerfile.` (src/lib.ts:310-312). -/
def isDockerfileName (n : String) : Bool :=
  n = "Dockerfile" || "Dockerfile.".data.isPrefixOf n.data

/-- `searchDir` of `findDockerfiles` (src/lib.ts:294-317): the current
implementation has no try/catch, so an unreadable directory makes
`readdirSync` throw and the error propagates out of the walk. -/
def searchDirEntries (pre : String) : List FSEntry → Except String (List String)
  | [] => .ok []
  | .file n :: rest =>
    (match searchDirEntries pre rest with
     | Except.error e => Except.error e
     | Except.ok found => Except.ok ((if isDockerfileName n then [pre ++ n] else []) ++ found))
  | .dir n readable children :: rest =>
    if skipDirs.contains n then searchDirEntries pre rest
    else if !readable then .error "EACCES: permission denied"
    else
      match searchDirEntries (pre ++ n ++ "/") children with
      | .error e => .error e
      | .ok sub =>
        match searchDirEntries pre rest with
        | .error e => .error e
        | .ok found => .ok (sub ++ found)

/-- `findDockerfiles` (src/lib.ts:291-321) on an abstract working tree:
a failing directory read anywhere aborts discovery. -/
def findDockerfiles (rootReadable : Bool) (entries : List FSEntry) : Except String (List String) :=
  if !rootReadable then .error "EACCES: permission denied"
  else searchDirEntries "" entries

/-- The walk of the earlier async variant `findDockerfiles`
(src/internal/get/lib.ts:119-146): `readdir` runs inside try/catch, so an
unreadable directory is skipped silently and contributes nothing. -/
def searchDirEntriesSafe (pre : String) : List FSEntry → List String
  | [] => []
  | .file n :: rest =>
    (if isDockerfileName n then [pre ++ n] else []) ++ searchDirEntriesSafe pre rest
  | .dir n readable children :: rest =>
    if skipDirs.contains n then searchDirEntriesSafe pre rest
    else if !readable then searchDirEntriesSafe pre rest
    else searchDirEntriesSafe (pre ++ n ++ "/") children ++ searchDirEntriesSafe pre rest

/-- The earlier async `findDockerfiles` (src/internal/get/lib.ts:114-150):
never fails; unreadable directories (the root included) yield nothing. -/
def findDockerfilesSafe (rootReadable : Bool) (entries : List FSEntry) : List String :=
  if !rootReadable then [] else searchDirEntriesSafe "" entries

/-- Every directory among the entries (recursively) is readable. -/
def allReadableL : List FSEntry → Bool
  | [] => true
  | .file _ :: rest => allReadableL rest
  | .dir _ readable children :: rest =>
    readable && allReadableL children && allReadableL rest

/-! Concrete inputs used to instantiate the theorems below. -/

/-- The built-in default project configuration (src/lib.ts:283-287). -/
def pcfgDefault : ProjectConfig :=
  { imageTagsOnTagPushed := some ["\x7btag\x7d"]
    imageTagsOnBranchPushed := some ["\x7bbranch\x7d-\x7btimestamp\x7d-\x7bsha\x7d", "latest"]
    watchFiles := [] }

/-- A registry with no published packages. -/
def regEmpty : Registry := fun _ => .ok []

/-- A registry whose package `img-two` carries a version tagged `v1.0.0`. -/
def regC1 : Registry := fun p =>
  if p = "img-two" then .ok [some ["v1.0.0"]] else .ok []

/-- A tag-push run over two Dockerfiles; the registry already holds the tag
the second image would publish, while the first image is clean. -/
def envC1 : Env :=
  { token := "token123"
    timezone := "UTC"
    repository := some { name := "my-repo", owner := "kengo-k" }
    before := some "1111111aaaaaaa"
    after := some "2222222bbbbbbb"
    ref := some "refs/tags/v1.0.0"
    projectConfig := .ok pcfgDefault
    compare := .ok []
    dockerfiles := .ok ["Dockerfile", "Dockerfile.api"]
    extractCfg := fun p =>
      if p = "Dockerfile" then .ok { imageName := some "img-one" }
      else .ok { imageName := some "img-two" }
    registry := regC1
    timestampStr := "202610110930" }

/-- The resolved spec of the first image of `envC1`. -/
def specC1a : ImageBuildSpec :=
  { dockerfilePath := "Dockerfile"
    imageName := "img-one"
    imageTagsOnTagPushed := some ["\x7btag\x7d"]
    imageTagsOnBranchPushed := some ["\x7bbranch\x7d-\x7btimestamp\x7d-\x7bsha\x7d", "latest"]
    watchFiles := [] }

/-- The resolved spec of the second image of `envC1`. -/
def specC1b : ImageBuildSpec :=
  { dockerfilePath := "Dockerfile.api"
    imageName := "img-two"
    imageTagsOnTagPushed := some ["\x7btag\x7d"]
    imageTagsOnBranchPushed := some ["\x7bbranch\x7d-\x7btimestamp\x7d-\x7bsha\x7d", "latest"]
    watchFiles := [] }

/-- The state `prepare envC1` reaches at the per-image loop. -/
def stC1 : PrepState :=
  { branch := none
    tag := some "v1.0.0"
    changedFiles := []
    vars := { tag := some "v1.0.0", branch := none, sha := some "2222222"
              timestamp := some "202610110930" }
    specs := [specC1a, specC1b]
    registry := regC1 }

/-- A branch-push run over one Dockerfile whose directive overrides the
branch tag templates with one referencing the undeclared variable `bogus`;
the project configuration itself is the valid default. -/
def envC5 : Env :=
  { token := "token123"
    timezone := "UTC"
    repository := some { name := "my-repo", owner := "kengo-k" }
    before := some "1111111aaaaaaa"
    after := some "2222222bbbbbbb"
    ref := some "refs/heads/main"
    projectConfig := .ok pcfgDefault
    compare := .ok ["README.md"]
    dockerfiles := .ok ["Dockerfile"]
    extractCfg := fun _ => .ok { imageTagsOnBranchPushed := some (some ["\x7bbogus\x7d"]) }
    registry := regEmpty
    timestampStr := "202610110930" }

/-- Like `envC5` but the bad template sits in the project configuration
instead of the Dockerfile directive. -/
def envC5proj : Env :=
  { envC5 with
    projectConfig := .ok { imageTagsOnTagPushed := some ["\x7boops\x7d"]
                           imageTagsOnBranchPushed := some []
                           watchFiles := [] }
    extractCfg := fun _ => .ok {} }

/-- A run whose triggering ref is exactly `refs/heads/` (empty branch name),
otherwise identical to a plain valid branch-push run. -/
def envC10 : Env :=
  { envC5 with ref := some "refs/heads/", extractCfg := fun _ => .ok {} }

/-- The state `prepare envC10` reaches at the per-image loop. -/
def stC10 : PrepState :=
  { branch := some ""
    tag := none
    changedFiles := ["README.md"]
    vars := { tag := none, branch := none, sha := some "2222222"
              timestamp := some "202610110930" }
    specs := [{ dockerfilePath := "Dockerfile"
                imageName := "my-repo"
                imageTagsOnTagPushed := some ["\x7btag\x7d"]
                imageTagsOnBranchPushed := some ["\x7bbranch\x7d-\x7btimestamp\x7d-\x7bsha\x7d", "latest"]
                watchFiles := [] }]
    registry := regEmpty }

/-- Template variables of a tag push of `v1.0`. -/
def vC4 : TemplateVariables := { tag := some "v1.0", sha := some "abc1234" }

/-- A registry whose every package holds a version tagged `v1.0` and
`latest`. -/
def regC4 : Registry := fun _ => .ok [some ["v1.0", "latest"]]

/-- A registry whose every request fails with a non-404 error. -/
def regDown : Registry := fun _ => .error "network down"

/-- A registry whose every request fails with a clean 404. -/
def reg404 : Registry := fun _ => .error "Not Found - 404"

/-- A working tree with an unreadable subdirectory next to a root
Dockerfile. -/
def exTree : List FSEntry := [.dir "secret" false [], .file "Dockerfile"]

/-! Theorems. -/

/-- If any spec in the list fails its step, the whole loop returns an error. -/
theorem runSpecs_error_of_mem {st : PrepState} {specs : List ImageBuildSpec}
    {s : ImageBuildSpec} {e : String} (hmem : s ∈ specs)
    (hfail : specStep st s = .error e) :
    ∃ e2, runSpecs st specs = .error e2 := by
  induction specs with
  | nil => cases hmem
  | cons a rest ih =>
    rw [List.mem_cons] at hmem
    cases hstep : specStep st a with
    | error e2 =>
      exact ⟨e2, by unfold runSpecs; rw [hstep]⟩
    | ok out =>
      rcases hmem with hEq | hmem2
      · subst hEq; rw [hstep] at hfail; cases hfail
      · obtain ⟨e2, he2⟩ := ih hmem2
        exact ⟨e2, by unfold runSpecs; rw [hstep, he2]⟩

/-- Claim C1: `generateBuildArgs` is all-or-nothing. If the run reaches the
per-image loop and any image's step fails (for example a tag-uniqueness
collision on a later image after earlier images passed), the whole run
returns an error and the caller never observes any instruction list, partial
or otherwise. -/
theorem generateBuildArgs_all_or_nothing (env : Env) (st : PrepState)
    (s : ImageBuildSpec) (e : String) (hprep : prepare env = .ok st)
    (hmem : s ∈ st.specs) (hfail : specStep st s = .error e) :
    (generateBuildArgs env).isOk = false := by
  obtain ⟨e2, he2⟩ := runSpecs_error_of_mem hmem hfail
  have hg : generateBuildArgs env = Except.error e2 := by
    unfold generateBuildArgs
    rw [hprep]
    exact he2
  rw [hg]
  rfl

/-- Claim C1 witness: in `envC1` the first image validates cleanly and the
second collides; the run as a whole returns no instruction list. -/
theorem generateBuildArgs_all_or_nothing_witness :
    (prepare envC1 = .ok stC1 ∧ specC1b ∈ stC1.specs ∧
      specStep stC1 specC1b = .error (tagExistsMsg "img-two" "v1.0.0") ∧
      specStep stC1 specC1a = .ok [{ dockerfilePath := "Dockerfile", imageName := "img-one",
                                     imageTag := "v1.0.0" }]) ∧
    (generateBuildArgs envC1).isOk = false := by
  refine ⟨⟨rfl, by decide, rfl, rfl⟩, ?_⟩
  exact generateBuildArgs_all_or_nothing envC1 stC1 specC1b
    (tagExistsMsg "img-two" "v1.0.0") rfl (by decide) rfl

/-- Claim C2 counterexample: in the current `checkImageTagExists` a clean
404/not-found failure of the registry call is not reported as "tag does not
exist"; it propagates as an error (there is no try/catch in
src/lib.ts:446-468). -/
theorem checkImageTagExists_404_propagates :
    checkImageTagExists reg404 "my-app" "v1.0" = Except.error "Not Found - 404" ∧
    checkImageTagExists reg404 "my-app" "v1.0" ≠ Except.ok false := by
  exact ⟨rfl, by decide⟩

/-- Claim C2 amended: the two implementations each treat every registry-call
failure uniformly. The current `checkImageTagExists` (src/lib.ts) propagates
every failure — 404 included — and the earlier variant
(src/internal/get/lib.ts) reports every failure — 404 or not — as `false`;
neither distinguishes a clean 404 from other failures. -/
theorem checkImageTagExists_failure_policy (reg : Registry)
    (imageName tag e : String) (h : reg (packageName imageName) = Except.error e) :
    checkImageTagExists reg imageName tag = Except.error e ∧
    checkImageTagExistsCaught reg imageName tag = false := by
  unfold checkImageTagExists checkImageTagExistsCaught
  rw [h]
  exact ⟨rfl, rfl⟩

/-- Claim C2 amended witness: a 404 failure propagates out of the current
implementation and is swallowed as `false` by the earlier one. -/
theorem checkImageTagExists_failure_policy_witness :
    checkImageTagExists reg404 "my-app" "v1.0" = Except.error "Not Found - 404" ∧
    checkImageTagExistsCaught reg404 "my-app" "v1.0" = false :=
  checkImageTagExists_failure_policy reg404 "my-app" "v1.0" "Not Found - 404" rfl

/-- Characterization of the tag-check loop under a registry that answers
every query: the loop fails exactly at the first non-`latest` tag that
exists, with the collision message naming the image and that tag. -/
theorem checkTagsLoop_eq (reg : Registry) (name : String) (existsF : String → Bool)
    (h : ∀ t, checkImageTagExists reg name t = .ok (existsF t)) (l : List String) :
    checkTagsLoop reg name l =
      match l.find? (fun t => (t != "latest") && existsF t) with
      | some t => .error (tagExistsMsg name t)
      | none => .ok () := by
  induction l with
  | nil => rfl
  | cons t rest ih =>
    by_cases hlat : t = "latest"
    · subst hlat
      unfold checkTagsLoop
      rw [if_pos rfl, List.find?_cons_of_neg _ (by simp [bne]), ih]
    · unfold checkTagsLoop
      rw [if_neg hlat, h t]
      cases hE : existsF t with
      | true =>
        rw [List.find?_cons_of_pos _ (by simp [hE, bne_iff_ne, hlat])]
      | false =>
        rw [List.find?_cons_of_neg _ (by simp [hE])]
        show checkTagsLoop reg name rest = _
        exact ih

/-- All-`latest` tag lists never touch the registry outcome: the loop
succeeds for every registry, even one whose requests all fail. -/
theorem checkTagsLoop_all_latest (reg : Registry) (name : String)
    (l : List String) (h : ∀ t ∈ l, t = "latest") :
    checkTagsLoop reg name l = .ok () := by
  induction l with
  | nil => rfl
  | cons t rest ih =>
    have ht : t = "latest" := h t (List.mem_cons_self t rest)
    subst ht
    unfold checkTagsLoop
    rw [if_pos rfl]
    exact ih (fun x hx => h x (List.mem_cons_of_mem _ hx))

/-- Claim C4: `ensureUniqueTag` renders the templates and, when the registry
answers every query, fails exactly when some rendered tag other than the
literal `latest` already exists — with the error naming the offending
image:tag pair — and succeeds otherwise; rendered tags equal to `latest` are
never checked, so a list rendering entirely to `latest` passes against any
registry whatsoever, failing ones included. -/
theorem ensureUniqueTag_spec (tags : List String) (vars : TemplateVariables)
    (reg : Registry) (name : String) (existsF : String → Bool)
    (h : ∀ t, checkImageTagExists reg name t = .ok (existsF t)) :
    (ensureUniqueTag tags vars reg name =
      match (generateTags tags vars).find? (fun t => (t != "latest") && existsF t) with
      | some t => .error (tagExistsMsg name t)
      | none => .ok ()) ∧
    (∀ reg2 : Registry, (∀ t ∈ generateTags tags vars, t = "latest") →
      ensureUniqueTag tags vars reg2 name = .ok ()) := by
  constructor
  · exact checkTagsLoop_eq reg name existsF h (generateTags tags vars)
  · intro reg2 hall
    exact checkTagsLoop_all_latest reg2 name (generateTags tags vars) hall

/-- Claim C4 witness: with `v1.0` already published, the rendered `v1.0`
collides with the message naming `my-app:v1.0`, while a list rendering only
to `latest` passes even against a registry whose requests all fail. -/
theorem ensureUniqueTag_spec_witness :
    ensureUniqueTag ["\x7btag\x7d", "latest"] vC4 regC4 "my-app" =
      Except.error (tagExistsMsg "my-app" "v1.0") ∧
    ensureUniqueTag ["latest"] vC4 regDown "my-app" = Except.ok () := by
  constructor
  · exact ((ensureUniqueTag_spec ["\x7btag\x7d", "latest"] vC4 regC4 "my-app"
      (fun t => ([some ["v1.0", "latest"]] : RegistryVersions).any (versionHasTag t))
      (fun t => rfl)).1).trans (by rfl)
  · exact (ensureUniqueTag_spec ["latest"] vC4 regC4 "my-app"
      (fun t => ([some ["v1.0", "latest"]] : RegistryVersions).any (versionHasTag t))
      (fun t => rfl)).2 regDown (by decide)

/-- Claim C7: per-field override resolution. Each resolved field of an
`ImageBuildSpec` equals the Dockerfile-directive value whenever that value is
defined — including an explicit `null` (`some none`) that disables the
trigger — and the project value otherwise; the three fields resolve
independently (the other directive fields are arbitrary in each equation). -/
theorem mkSpec_field_resolution (path name : String) (d : DockerfileConfig)
    (p : ProjectConfig) (vT vB : Option (List String)) (vW : List String) :
    ((mkSpec path name { d with imageTagsOnTagPushed := some vT } p).imageTagsOnTagPushed = vT) ∧
    ((mkSpec path name { d with imageTagsOnTagPushed := none } p).imageTagsOnTagPushed =
      p.imageTagsOnTagPushed) ∧
    ((mkSpec path name { d with imageTagsOnBranchPushed := some vB } p).imageTagsOnBranchPushed = vB) ∧
    ((mkSpec path name { d with imageTagsOnBranchPushed := none } p).imageTagsOnBranchPushed =
      p.imageTagsOnBranchPushed) ∧
    ((mkSpec path name { d with watchFiles := some vW } p).watchFiles = vW) ∧
    ((mkSpec path name { d with watchFiles := none } p).watchFiles = p.watchFiles) :=
  ⟨rfl, rfl, rfl, rfl, rfl, rfl⟩

/-- With a falsy tag and a falsy branch the loop emits nothing and raises
nothing, whatever the specs are. -/
theorem runSpecs_inactive {st : PrepState} (htag : jsTruthy st.tag = false)
    (hbr : jsTruthy st.branch = false) (l : List ImageBuildSpec) :
    runSpecs st l = .ok [] := by
  induction l with
  | nil => rfl
  | cons a rest ih =>
    have hstep : specStep st a = .ok [] := by
      unfold specStep
      rw [htag, hbr]
      simp
    unfold runSpecs
    rw [hstep, ih]
    rfl

/-- Claim C10: `parseGitRef` accepts the ref string `refs/heads/` without
throwing, producing the empty branch name and no tag; a run triggered by
that ref that reaches the per-image loop treats the event as neither a tag
push (no tag) nor a branch push (empty string is falsy) and returns the
empty instruction list with no error. -/
theorem parseGitRef_empty_branch :
    parseGitRef "refs/heads/" = Except.ok { branch := some "", tag := none } ∧
    ∀ (env : Env) (st : PrepState), env.ref = some "refs/heads/" →
      prepare env = .ok st → generateBuildArgs env = .ok [] := by
  refine ⟨rfl, ?_⟩
  intro env st href hprep
  have hprep0 := hprep
  unfold prepare at hprep
  split at hprep
  · exact Except.noConfusion hprep
  split at hprep
  · exact Except.noConfusion hprep
  split at hprep
  · exact Except.noConfusion hprep
  split at hprep
  · exact Except.noConfusion hprep
  split at hprep
  · exact Except.noConfusion hprep
  split at hprep
  · exact Except.noConfusion hprep
  split at hprep
  · exact Except.noConfusion hprep
  rename_i gref heqparse
  split at hprep
  · exact Except.noConfusion hprep
  split at hprep
  · exact Except.noConfusion hprep
  split at hprep
  · exact Except.noConfusion hprep
  split at hprep
  · exact Except.noConfusion hprep
  have hst := Except.ok.inj hprep
  have hgref : gref = ({ branch := some "", tag := none } : GitRef) := by
    rw [href] at heqparse
    simp only [Option.getD_some] at heqparse
    rw [show parseGitRef "refs/heads/" = Except.ok ({ branch := some "", tag := none } : GitRef)
      from rfl] at heqparse
    exact (Except.ok.inj heqparse).symm
  have hb : st.branch = some "" := by rw [← hst, hgref]
  have ht : st.tag = none := by rw [← hst, hgref]
  have hrun : runSpecs st st.specs = .ok [] :=
    runSpecs_inactive (by rw [ht]; rfl) (by rw [hb]; rfl) st.specs
  unfold generateBuildArgs
  rw [hprep0]
  exact hrun

/-- Claim C10 witness: the concrete run `envC10` with ref `refs/heads/`
returns the empty instruction list. -/
theorem parseGitRef_empty_branch_witness :
    parseGitRef "refs/heads/" = Except.ok { branch := some "", tag := none } ∧
    generateBuildArgs envC10 = .ok [] :=
  ⟨parseGitRef_empty_branch.1, parseGitRef_empty_branch.2 envC10 stC10 rfl rfl⟩

/-- Claim C5 counterexample: a template renderable in the run but supplied
as a Dockerfile directive is never validated. In `envC5` the directive
overrides the branch templates with one referencing the undeclared variable
`bogus`; the validator would reject that template, yet the run succeeds and
emits the malformed tag with the placeholder left verbatim instead of
failing. -/
theorem directive_templates_skip_validation :
    generateBuildArgs envC5 =
      .ok [{ dockerfilePath := "Dockerfile", imageName := "my-repo",
             imageTag := "\x7bbogus\x7d" }] ∧
    validateTemplateVariables ["\x7bbogus\x7d"] availableVariables =
      .error (invalidTemplateMsg ["bogus"]) :=
  ⟨rfl, rfl⟩

/-- Claim C5 amended: only the project-configuration templates are validated
pre-flight. A failing validation of the project tag-push templates (or, with
those passing, of the project branch-push templates) aborts the run with the
aggregated error before any build decision; Dockerfile-directive override
templates are never validated, and a directive template with an undeclared
variable flows through to an emitted tag with its placeholder left verbatim
(concrete run `envC5`). -/
theorem project_templates_validated_preflight :
    (∀ (env : Env) (pcfg : ProjectConfig) (e : String),
      env.token.isEmpty = false → (jsTrim env.token).isEmpty = false →
      env.projectConfig = .ok pcfg →
      validateTagCfg pcfg.imageTagsOnTagPushed = .error e →
      generateBuildArgs env = .error e) ∧
    (∀ (env : Env) (pcfg : ProjectConfig) (e : String),
      env.token.isEmpty = false → (jsTrim env.token).isEmpty = false →
      env.projectConfig = .ok pcfg →
      validateTagCfg pcfg.imageTagsOnTagPushed = .ok () →
      validateTagCfg pcfg.imageTagsOnBranchPushed = .error e →
      generateBuildArgs env = .error e) ∧
    generateBuildArgs envC5 =
      .ok [{ dockerfilePath := "Dockerfile", imageName := "my-repo",
             imageTag := "\x7bbogus\x7d" }] := by
  refine ⟨?_, ?_, rfl⟩
  · intro env pcfg e h1 h2 hcfg hval
    simp [generateBuildArgs, prepare, h1, h2, hcfg, hval]
  · intro env pcfg e h1 h2 hcfg hval1 hval2
    simp [generateBuildArgs, prepare, h1, h2, hcfg, hval1, hval2]

/-- Claim C5 amended witness: a project configuration whose tag-push
templates reference the undeclared variable `oops` aborts the concrete run
`envC5proj` with the aggregated validation error. -/
theorem project_templates_validated_preflight_witness :
    generateBuildArgs envC5proj = .error (invalidTemplateMsg ["oops"]) :=
  project_templates_validated_preflight.1 envC5proj
    { imageTagsOnTagPushed := some ["\x7boops\x7d"]
      imageTagsOnBranchPushed := some []
      watchFiles := [] }
    (invalidTemplateMsg ["oops"]) rfl rfl rfl rfl

/-- Membership after one accumulation step of `validateTemplateVariables`. -/
theorem mem_pushMissing {avail acc : List String} {x v : String} :
    v ∈ pushMissing avail acc x ↔ v ∈ acc ∨ (v = x ∧ x ∉ avail) := by
  unfold pushMissing
  split_ifs with h1 h2
  · have hx : x ∈ avail := by simpa using h1
    constructor
    · exact fun h => Or.inl h
    · rintro (h | ⟨rfl, hna⟩)
      · exact h
      · exact absurd hx hna
  · have hx : x ∈ acc := by simpa using h2
    constructor
    · exact fun h => Or.inl h
    · rintro (h | ⟨rfl, _⟩)
      · exact h
      · exact hx
  · have hna : x ∉ avail := by simpa using h1
    simp only [List.mem_append, List.mem_singleton]
    constructor
    · rintro (h | rfl)
      · exact Or.inl h
      · exact Or.inr ⟨rfl, hna⟩
    · rintro (h | ⟨rfl, _⟩)
      · exact Or.inl h
      · exact Or.inr rfl

/-- One accumulation step preserves freedom from duplicates. -/
theorem nodup_pushMissing {avail acc : List String} {x : String}
    (h : acc.Nodup) : (pushMissing avail acc x).Nodup := by
  unfold pushMissing
  split_ifs with h1 h2
  · exact h
  · exact h
  · have hx : x ∉ acc := by simpa using h2
    rw [← List.concat_eq_append]
    exact List.Nodup.concat hx h

/-- Membership in the fold of one template's tokens. -/
theorem mem_foldl_pushMissing (avail : List String) (toks : List String) :
    ∀ (acc : List String) (v : String),
      v ∈ toks.foldl (pushMissing avail) acc ↔
        v ∈ acc ∨ (v ∈ toks ∧ v ∉ avail) := by
  induction toks with
  | nil => intro acc v; simp
  | cons t ts ih =>
    intro acc v
    rw [List.foldl_cons, ih, mem_pushMissing, List.mem_cons]
    constructor
    · rintro ((h | ⟨rfl, hna⟩) | ⟨hm, hna⟩)
      · exact Or.inl h
      · exact Or.inr ⟨Or.inl rfl, hna⟩
      · exact Or.inr ⟨Or.inr hm, hna⟩
    · rintro (h | ⟨(rfl | hm), hna⟩)
      · exact Or.inl (Or.inl h)
      · exact Or.inl (Or.inr ⟨rfl, hna⟩)
      · exact Or.inr ⟨hm, hna⟩

/-- The fold of one template's tokens preserves freedom from duplicates. -/
theorem nodup_foldl_pushMissing (avail : List String) (toks : List String) :
    ∀ acc : List String, acc.Nodup → (toks.foldl (pushMissing avail) acc).Nodup := by
  induction toks with
  | nil => intro acc h; exact h
  | cons t ts ih =>
    intro acc h
    rw [List.foldl_cons]
    exact ih _ (nodup_pushMissing h)

/-- Membership in the accumulated missing-variable list over all templates. -/
theorem mem_collect_aux (avail : List String) (ts : List String) :
    ∀ (acc : List String) (v : String),
      v ∈ ts.foldl (fun acc t => (tokensOf t.data).foldl (pushMissing avail) acc) acc ↔
        v ∈ acc ∨ (v ∈ allTokens ts ∧ v ∉ avail) := by
  induction ts with
  | nil => intro acc v; simp [allTokens]
  | cons t ts ih =>
    intro acc v
    rw [List.foldl_cons, ih, mem_foldl_pushMissing]
    have hat : v ∈ allTokens (t :: ts) ↔ v ∈ tokensOf t.data ∨ v ∈ allTokens ts := by
      simp [allTokens]
    rw [hat]
    constructor
    · rintro ((h | ⟨hm, hna⟩) | ⟨hm, hna⟩)
      · exact Or.inl h
      · exact Or.inr ⟨Or.inl hm, hna⟩
      · exact Or.inr ⟨Or.inr hm, hna⟩
    · rintro (h | ⟨(hm | hm), hna⟩)
      · exact Or.inl (Or.inl h)
      · exact Or.inl (Or.inr ⟨hm, hna⟩)
      · exact Or.inr ⟨hm, hna⟩

/-- Characterization of the collected missing variables: exactly the token
names referenced by some template and not available. -/
theorem mem_collectMissing {ts avail : List String} {v : String} :
    v ∈ collectMissing ts avail ↔ v ∈ allTokens ts ∧ v ∉ avail := by
  unfold collectMissing
  rw [mem_collect_aux]
  simp

/-- The template-level fold preserves freedom from duplicates. -/
theorem nodup_collect_aux (avail : List String) (ts : List String) :
    ∀ acc : List String, acc.Nodup →
      (ts.foldl (fun acc t => (tokensOf t.data).foldl (pushMissing avail) acc) acc).Nodup := by
  induction ts with
  | nil => intro acc h; exact h
  | cons t ts2 ih =>
    intro acc h
    rw [List.foldl_cons]
    exact ih _ (nodup_foldl_pushMissing avail _ acc h)

/-- The collected missing variables carry no duplicates. -/
theorem nodup_collectMissing (ts avail : List String) :
    (collectMissing ts avail).Nodup :=
  nodup_collect_aux avail ts [] List.nodup_nil

/-- Claim C6: `validateTemplateVariables` succeeds exactly when every
`\x7bname\x7d` token of every template names an available variable;
otherwise it raises the single aggregated error built from the missing-name
list, and that list contains every undeclared referenced name exactly once
(it has no duplicates even when a name occurs in several templates). -/
theorem validateTemplateVariables_spec (ts avail : List String) :
    ((validateTemplateVariables ts avail = .ok ()) ↔
      ∀ v ∈ allTokens ts, v ∈ avail) ∧
    (collectMissing ts avail).Nodup ∧
    (∀ v, v ∈ collectMissing ts avail ↔ (v ∈ allTokens ts ∧ v ∉ avail)) ∧
    (validateTemplateVariables ts avail = .ok () ∨
      validateTemplateVariables ts avail =
        .error (invalidTemplateMsg (collectMissing ts avail))) := by
  refine ⟨?_, nodup_collectMissing ts avail, fun v => mem_collectMissing, ?_⟩
  · simp only [validateTemplateVariables]
    split_ifs with h
    · simp only [true_iff]
      intro v hv
      have hempty : collectMissing ts avail = [] := by simpa [List.isEmpty_iff] using h
      by_contra hna
      have : v ∈ collectMissing ts avail := mem_collectMissing.mpr ⟨hv, hna⟩
      rw [hempty] at this
      cases this
    · simp only [reduceCtorEq, false_iff, not_forall]
      have hne : collectMissing ts avail ≠ [] := by
        simpa [List.isEmpty_iff] using h
      obtain ⟨v, hv⟩ := List.exists_mem_of_ne_nil _ hne
      obtain ⟨hvt, hvna⟩ := mem_collectMissing.mp hv
      exact ⟨v, hvt, hvna⟩
  · simp only [validateTemplateVariables]
    split_ifs with h
    · exact Or.inl rfl
    · exact Or.inr rfl

/-- The split worker ignores the exact fuel once it covers the input
length. -/
theorem jsSplitF_irrel (sep : List Char) (hsep : sep ≠ []) :
    ∀ (f1 : Nat) (l : List Char) (f2 : Nat), l.length ≤ f1 → l.length ≤ f2 →
      jsSplitF sep f1 l = jsSplitF sep f2 l := by
  intro f1
  induction f1 with
  | zero =>
    intro l f2 h1 _
    have hl : l = [] := List.eq_nil_of_length_eq_zero (Nat.le_zero.mp h1)
    subst hl
    cases f2 <;> rfl
  | succ g1 ih =>
    intro l f2 h1 h2
    cases l with
    | nil => cases f2 <;> rfl
    | cons c rest =>
      cases f2 with
      | zero => simp at h2
      | succ g2 =>
        have hr1 : rest.length ≤ g1 := by
          simp only [List.length_cons] at h1; omega
        have hr2 : rest.length ≤ g2 := by
          simp only [List.length_cons] at h2; omega
        have hslen : 1 ≤ sep.length := List.length_pos.mpr hsep
        simp only [jsSplitF]
        by_cases hc : (decide ¬sep = [] && sep.isPrefixOf (c :: rest)) = true
        · rw [if_pos hc, if_pos hc]
          congr 1
          apply ih
          · simp only [List.length_drop, List.length_cons]; omega
          · simp only [List.length_drop, List.length_cons]; omega
        · rw [if_neg hc, if_neg hc, ih rest g2 hr1 hr2]

/-- Unfolding equation for `jsSplitL` on a cons cell (the fuel discharged). -/
theorem jsSplitL_cons (sep : List Char) (hsep : sep ≠ []) (c : Char) (rest : List Char) :
    jsSplitL sep (c :: rest) =
      if sep ≠ [] && sep.isPrefixOf (c :: rest) then
        [] :: jsSplitL sep ((c :: rest).drop sep.length)
      else
        match jsSplitL sep rest with
        | [] => [[c]]
        | h :: t => (c :: h) :: t := by
  show jsSplitF sep (c :: rest).length (c :: rest) = _
  have hslen : 1 ≤ sep.length := List.length_pos.mpr hsep
  simp only [List.length_cons, jsSplitF]
  by_cases hc : (decide ¬sep = [] && sep.isPrefixOf (c :: rest)) = true
  · rw [if_pos hc, if_pos hc]
    congr 1
    apply jsSplitF_irrel sep hsep
    · simp only [List.length_drop, List.length_cons]; omega
    · exact Nat.le_refl _
  · rw [if_neg hc, if_neg hc]
    rfl

/-- The split never produces the empty list of chunks. -/
theorem jsSplitL_ne_nil (sep : List Char) (hsep : sep ≠ []) (l : List Char) :
    jsSplitL sep l ≠ [] := by
  cases l with
  | nil => simp [jsSplitL, jsSplitF]
  | cons c rest =>
    rw [jsSplitL_cons sep hsep]
    split
    · simp
    · split <;> simp

/-- Splitting on a single character absent from the input yields the input
as the only chunk. -/
theorem jsSplitL_single_of_not_mem (c : Char) (l : List Char) (h : c ∉ l) :
    jsSplitL [c] l = [l] := by
  induction l with
  | nil => rfl
  | cons d rest ih =>
    have hcd : c ≠ d := fun hEq => h (hEq ▸ List.mem_cons_self d rest)
    have hrest : c ∉ rest := fun hm => h (List.mem_cons_of_mem d hm)
    rw [jsSplitL_cons [c] (by simp) d rest]
    have hcond : ([c] ≠ [] && [c].isPrefixOf (d :: rest)) = false := by
      simp [List.isPrefixOf, hcd]
    rw [hcond]
    simp only [Bool.false_eq_true, if_false]
    rw [ih hrest]

/-- Splitting on a single character the input contains yields at least two
chunks. -/
theorem jsSplitL_single_two_chunks (c : Char) (l : List Char) (h : c ∈ l) :
    2 ≤ (jsSplitL [c] l).length := by
  induction l with
  | nil => cases h
  | cons d rest ih =>
    rw [jsSplitL_cons [c] (by simp) d rest]
    by_cases hcd : c = d
    · subst hcd
      have hcond : ([c] ≠ [] && [c].isPrefixOf (c :: rest)) = true := by
        simp [List.isPrefixOf]
      rw [if_pos hcond]
      cases hx : jsSplitL [c] ((c :: rest).drop [c].length) with
      | nil => exact absurd hx (jsSplitL_ne_nil [c] (by simp) _)
      | cons a b => simp [hx]
    · have hrest : c ∈ rest := by
        rcases List.mem_cons.mp h with hEq | hm
        · exact absurd hEq hcd
        · exact hm
      have hcond : ([c] ≠ [] && [c].isPrefixOf (d :: rest)) = false := by
        simp [List.isPrefixOf, hcd]
      rw [hcond]
      simp only [Bool.false_eq_true, if_false]
      have h2 := ih hrest
      cases hx : jsSplitL [c] rest with
      | nil => exact absurd hx (jsSplitL_ne_nil [c] (by simp) rest)
      | cons a b =>
        rw [hx] at h2
        simp only [List.length_cons] at h2 ⊢
        omega

/-- The last chunk of a single-character split is unaffected by anything
before an occurrence of the separator. -/
theorem jsSplitL_single_getLastD (c : Char) (a b : List Char) :
    (jsSplitL [c] (a ++ c :: b)).getLastD [] = (jsSplitL [c] b).getLastD [] := by
  induction a with
  | nil =>
    rw [List.nil_append, jsSplitL_cons [c] (by simp) c b]
    have hcond : ([c] ≠ [] && [c].isPrefixOf (c :: b)) = true := by
      simp [List.isPrefixOf]
    rw [hcond]
    simp only [if_true, List.getLastD_cons]
    rfl
  | cons d a2 ih =>
    rw [List.cons_append, jsSplitL_cons [c] (by simp) d (a2 ++ c :: b)]
    by_cases hcd : c = d
    · subst hcd
      have hcond : ([c] ≠ [] && [c].isPrefixOf (c :: (a2 ++ c :: b))) = true := by
        simp [List.isPrefixOf]
      rw [hcond]
      simp only [if_true, List.getLastD_cons]
      exact ih
    · have hcond : ([c] ≠ [] && [c].isPrefixOf (d :: (a2 ++ c :: b))) = false := by
        simp [List.isPrefixOf, hcd]
      rw [hcond]
      simp only [Bool.false_eq_true, if_false]
      cases hx : jsSplitL [c] (a2 ++ c :: b) with
      | nil => exact absurd hx (jsSplitL_ne_nil [c] (by simp) _)
      | cons h t =>
        have hlen : 2 ≤ (jsSplitL [c] (a2 ++ c :: b)).length :=
          jsSplitL_single_two_chunks c _ (by simp)
        rw [hx] at hlen
        simp only [List.length_cons] at hlen
        have ht : t ≠ [] := by
          intro hEq
          rw [hEq] at hlen
          simp at hlen
        rw [hx] at ih
        simp only [List.getLastD_cons] at ih ⊢
        cases t with
        | nil => exact absurd rfl ht
        | cons u v =>
          simp only [List.getLastD_cons] at ih ⊢
          exact ih

/-- The package name of an owner-qualified image: everything after the last
slash. -/
theorem packageNameL_append (a n : List Char) (hn : '/' ∉ n) :
    packageNameL (a ++ '/' :: n) = n := by
  unfold packageNameL
  have hc : ((a ++ '/' :: n).contains '/') = true := by
    simp [List.contains, List.elem_iff]
  rw [if_pos hc]
  show (jsSplitL ['/'] (a ++ '/' :: n)).getLastD [] = n
  rw [jsSplitL_single_getLastD '/' a n, jsSplitL_single_of_not_mem '/' n hn]
  rfl

/-- The package name of a bare image name (no slash) is the name itself. -/
theorem packageNameL_noslash (n : List Char) (hn : '/' ∉ n) :
    packageNameL n = n := by
  unfold packageNameL
  have hc : (n.contains '/') = false := by
    simp [List.contains, List.elem_iff, hn]
  rw [hc]
  simp

/-- Claim C9: `checkImageTagExists` queries the registry package named by
the part of the image name after the last slash when the name contains one
(and the whole name otherwise), so two image names differing only in their
owner prefix query the same registry package. -/
theorem checkImageTagExists_owner_irrelevant (o1 o2 n : List Char)
    (reg : Registry) (t : String) (hn : '/' ∉ n) :
    packageNameL (o1 ++ '/' :: n) = n ∧
    packageNameL (o2 ++ '/' :: n) = n ∧
    packageNameL n = n ∧
    packageName (String.mk (o1 ++ '/' :: n)) = packageName (String.mk (o2 ++ '/' :: n)) ∧
    checkImageTagExists reg (String.mk (o1 ++ '/' :: n)) t =
      checkImageTagExists reg (String.mk (o2 ++ '/' :: n)) t := by
  have h1 := packageNameL_append o1 n hn
  have h2 := packageNameL_append o2 n hn
  have hpk : packageName (String.mk (o1 ++ '/' :: n)) = packageName (String.mk (o2 ++ '/' :: n)) := by
    show String.mk (packageNameL (o1 ++ '/' :: n)) = String.mk (packageNameL (o2 ++ '/' :: n))
    rw [h1, h2]
  refine ⟨h1, h2, packageNameL_noslash n hn, hpk, ?_⟩
  unfold checkImageTagExists
  rw [hpk]

/-- Claim C9 witness: `alice/my-app` and `bob/my-app` query package
`my-app`. -/
theorem checkImageTagExists_owner_irrelevant_witness :
    packageName "alice/my-app" = packageName "bob/my-app" ∧
    checkImageTagExists regEmpty "alice/my-app" "v1.0" =
      checkImageTagExists regEmpty "bob/my-app" "v1.0" ∧
    packageName "alice/my-app" = "my-app" := by
  have h := checkImageTagExists_owner_irrelevant "alice".data "bob".data "my-app".data
    regEmpty "v1.0" (by decide)
  exact ⟨h.2.2.2.1, h.2.2.2.2, by rfl⟩

/-- Claim C8 counterexample: in the current discovery (src/lib.ts:291-321,
no try/catch) an unreadable subdirectory aborts the whole walk with the
thrown read error; the Dockerfile sitting next to it is not returned. -/
theorem findDockerfiles_unreadable_aborts :
    findDockerfiles true exTree = Except.error "EACCES: permission denied" ∧
    findDockerfiles true exTree ≠ Except.ok ["Dockerfile"] ∧
    findDockerfilesSafe true exTree = ["Dockerfile"] := by
  refine ⟨?_, ?_, ?_⟩
  · simp [findDockerfiles, exTree, searchDirEntries, skipDirs]
  · simp [findDockerfiles, exTree, searchDirEntries, skipDirs]
  · simp [findDockerfilesSafe, exTree, searchDirEntriesSafe, skipDirs, isDockerfileName]

/-- On a fully readable tree the current walk succeeds and agrees with the
silently-skipping variant. -/
theorem searchDirEntries_agree (pre : String) (entries : List FSEntry)
    (h : allReadableL entries = true) :
    searchDirEntries pre entries = .ok (searchDirEntriesSafe pre entries) := by
  induction pre, entries using searchDirEntries.induct with
  | case1 pre =>
    simp [searchDirEntries, searchDirEntriesSafe]
  | case2 pre n rest e hx ih =>
    have hr : allReadableL rest = true := by simpa [allReadableL] using h
    rw [ih hr] at hx
    cases hx
  | case3 pre n rest dfs hx ih =>
    have hr : allReadableL rest = true := by simpa [allReadableL] using h
    simp [searchDirEntries, searchDirEntriesSafe, ih hr]
  | case4 pre n readable children rest hskip ih =>
    simp only [allReadableL, Bool.and_eq_true] at h
    obtain ⟨⟨hr, hc⟩, hrest⟩ := h
    have hm : n ∈ skipDirs := by simpa using hskip
    simp [searchDirEntries, searchDirEntriesSafe, hm, ih hrest]
  | case5 pre n readable children rest hskip hread =>
    simp only [allReadableL, Bool.and_eq_true] at h
    obtain ⟨⟨hr, hc⟩, hrest⟩ := h
    rw [hr] at hread
    simp at hread
  | case6 pre n readable children rest hskip hread e hx ih =>
    simp only [allReadableL, Bool.and_eq_true] at h
    obtain ⟨⟨hr, hc⟩, hrest⟩ := h
    rw [ih hc] at hx
    cases hx
  | case7 pre n readable children rest hskip hread dfs hxc e hx ih2 ih1 =>
    simp only [allReadableL, Bool.and_eq_true] at h
    obtain ⟨⟨hr, hc⟩, hrest⟩ := h
    rw [ih1 hrest] at hx
    cases hx
  | case8 pre n readable children rest hskip hread dfs1 hxc dfs2 hxr ih2 ih1 =>
    simp only [allReadableL, Bool.and_eq_true] at h
    obtain ⟨⟨hr, hc⟩, hrest⟩ := h
    have hnm : n ∉ skipDirs := by simpa using hskip
    simp [searchDirEntries, searchDirEntriesSafe, hnm, hr, ih2 hc, ih1 hrest]

/-- Claim C8 amended: only the earlier async variant
(src/internal/get/lib.ts) skips an unreadable subdirectory silently and
returns the Dockerfiles found elsewhere; the current discovery
(src/lib.ts) throws on the unreadable subdirectory and the walk fails. The
two agree on fully readable trees. -/
theorem findDockerfiles_unreadable_policy :
    (∀ (pre n : String) (children rest : List FSEntry),
      searchDirEntriesSafe pre (.dir n false children :: rest) =
        searchDirEntriesSafe pre rest) ∧
    (∀ (pre n : String) (children rest : List FSEntry),
      skipDirs.contains n = false →
      searchDirEntries pre (.dir n false children :: rest) =
        .error "EACCES: permission denied") ∧
    (∀ entries : List FSEntry, allReadableL entries = true →
      findDockerfiles true entries = .ok (findDockerfilesSafe true entries)) ∧
    findDockerfilesSafe true exTree = ["Dockerfile"] ∧
    findDockerfiles true exTree = Except.error "EACCES: permission denied" := by
  refine ⟨?_, ?_, ?_, ?_, ?_⟩
  · intro pre n children rest
    by_cases hk : skipDirs.contains n = true <;> simp [searchDirEntriesSafe, hk]
  · intro pre n children rest hn
    have hnm : n ∉ skipDirs := by simpa using hn
    simp [searchDirEntries, hnm]
  · intro entries h
    simpa [findDockerfiles, findDockerfilesSafe] using searchDirEntries_agree "" entries h
  · simp [findDockerfilesSafe, exTree, searchDirEntriesSafe, skipDirs, isDockerfileName]
  · simp [findDockerfiles, exTree, searchDirEntries, skipDirs]

/-- Claim C8 amended witness: the unreadable subdirectory of `exTree` kills
the current walk, while the variant's walk on the readable remainder
succeeds and the two agree there. -/
theorem findDockerfiles_unreadable_policy_witness :
    searchDirEntries "" exTree = Except.error "EACCES: permission denied" ∧
    findDockerfiles true [FSEntry.file "Dockerfile"] =
      .ok (findDockerfilesSafe true [FSEntry.file "Dockerfile"]) := by
  refine ⟨?_, ?_⟩
  · exact findDockerfiles_unreadable_policy.2.1 "" "secret" [] [FSEntry.file "Dockerfile"]
      (by decide)
  · exact findDockerfiles_unreadable_policy.2.2.1 [FSEntry.file "Dockerfile"]
      (by simp [allReadableL])

/-- Splitting distributes over an occurrence-free left part: chars before
the first possible separator occurrence attach to the first chunk. -/
theorem jsSplitL_append_chunks (sc : Char) (st : List Char) :
    ∀ (a l : List Char), sc ∉ a →
      jsSplitL (sc :: st) (a ++ l) =
        match jsSplitL (sc :: st) l with
        | [] => [a]
        | h :: t => (a ++ h) :: t := by
  intro a
  induction a with
  | nil =>
    intro l _
    cases hx : jsSplitL (sc :: st) l with
    | nil => exact absurd hx (jsSplitL_ne_nil _ (by simp) l)
    | cons h t =>
      rw [List.nil_append, hx]
      simp
  | cons d a2 ih =>
    intro l ha
    have hd : sc ≠ d := fun hEq => ha (hEq ▸ List.mem_cons_self d a2)
    have ha2 : sc ∉ a2 := fun hm => ha (List.mem_cons_of_mem d hm)
    rw [List.cons_append, jsSplitL_cons (sc :: st) (by simp) d (a2 ++ l)]
    have hcond : ((sc :: st) ≠ [] && (sc :: st).isPrefixOf (d :: (a2 ++ l))) = false := by
      simp [List.isPrefixOf, hd]
    rw [hcond]
    simp only [Bool.false_eq_true, if_false]
    rw [ih l ha2]
    cases hx : jsSplitL (sc :: st) l with
    | nil => exact absurd hx (jsSplitL_ne_nil _ (by simp) l)
    | cons h t => simp

/-- A star-free string is a single chunk under the double-star separator. -/
theorem jsSplitL_nostar (l : List Char) (hl : '*' ∉ l) :
    jsSplitL ['*', '*', '/'] l = [l] := by
  have h := jsSplitL_append_chunks '*' ['*', '/'] l [] hl
  rw [show jsSplitL ['*', '*', '/'] ([] : List Char) = [[]] from rfl] at h
  simpa using h

/-- A chunk of shape star-dot-extension survives the double-star split
whole when the extension is star-free. -/
theorem jsSplitL_star_dot (ext : List Char) (hext : '*' ∉ ext) :
    jsSplitL ['*', '*', '/'] ('*' :: '.' :: ext) = ['*' :: '.' :: ext] := by
  rw [jsSplitL_cons ['*', '*', '/'] (by simp) '*' ('.' :: ext)]
  have hcond : (['*', '*', '/'] ≠ [] && ['*', '*', '/'].isPrefixOf ('*' :: '.' :: ext)) = false := by
    simp [List.isPrefixOf]
  rw [hcond]
  simp only [Bool.false_eq_true, if_false]
  have hdot : '*' ∉ '.' :: ext := by
    intro hm
    rcases List.mem_cons.mp hm with hEq | hm2
    · cases hEq
    · exact hext hm2
  rw [jsSplitL_nostar ('.' :: ext) hdot]

/-- The split of a `pre + dblstar-slash + star` pattern. -/
theorem jsSplitL_pat_star (a : List Char) (ha : '*' ∉ a) :
    jsSplitL ['*', '*', '/'] (a ++ ['*', '*', '/', '*']) = [a, ['*']] := by
  rw [jsSplitL_append_chunks '*' ['*', '/'] a ['*', '*', '/', '*'] ha]
  have hx : jsSplitL ['*', '*', '/'] ['*', '*', '/', '*'] = [[], ['*']] := by rfl
  rw [hx]
  simp

/-- The split of a `pre + dblstar-slash + star-dot-ext` pattern. -/
theorem jsSplitL_pat_star_dot (a ext : List Char) (ha : '*' ∉ a) (hext : '*' ∉ ext) :
    jsSplitL ['*', '*', '/'] (a ++ ('*' :: '*' :: '/' :: '*' :: '.' :: ext)) =
      [a, '*' :: '.' :: ext] := by
  rw [jsSplitL_append_chunks '*' ['*', '/'] a _ ha]
  have hx : jsSplitL ['*', '*', '/'] ('*' :: '*' :: '/' :: '*' :: '.' :: ext) =
      [[], '*' :: '.' :: ext] := by
    rw [jsSplitL_cons ['*', '*', '/'] (by simp) '*' ('*' :: '/' :: '*' :: '.' :: ext)]
    have hcond : (['*', '*', '/'] ≠ [] &&
        ['*', '*', '/'].isPrefixOf ('*' :: '*' :: '/' :: '*' :: '.' :: ext)) = true := by
      simp [List.isPrefixOf]
    rw [if_pos hcond]
    show [] :: jsSplitL ['*', '*', '/'] ('*' :: '.' :: ext) = _
    rw [jsSplitL_star_dot ext hext]
  rw [hx]
  simp

/-- A star-dot prefix test fails on any pattern whose star-free front is
followed by a double star. -/
theorem star_dot_not_prefix (a r : List Char) (ha : '*' ∉ a) :
    ¬ (['*', '.'] <+: (a ++ '*' :: '*' :: r)) := by
  cases a with
  | nil =>
    intro h
    rw [List.nil_append] at h
    rcases List.cons_prefix_cons.mp h with ⟨-, h2⟩
    rcases List.cons_prefix_cons.mp h2 with ⟨h3, -⟩
    exact absurd h3 (by decide)
  | cons c a2 =>
    intro h
    rw [List.cons_append] at h
    rcases List.cons_prefix_cons.mp h with ⟨h1, -⟩
    exact ha (List.mem_cons.mpr (Or.inl h1))

/-- A pattern of shape `pre + dblstar-slash + suffix` with star-free pre and
suffix contains only two stars, hence never the four-character sequence
star-star-slash-star. -/
theorem not_infix_dblstar_star (a suf : List Char) (ha : '*' ∉ a) (hsuf : '*' ∉ suf) :
    ¬ (['*', '*', '/', '*'] <:+: (a ++ ('*' :: '*' :: '/' :: suf))) := by
  intro hinf
  have hcnt := hinf.sublist.count_le '*'
  have h1 : List.count '*' ['*', '*', '/', '*'] = 3 := by decide
  have hca : List.count '*' a = 0 := List.count_eq_zero.mpr ha
  have hcs : List.count '*' suf = 0 := List.count_eq_zero.mpr hsuf
  have h2 : List.count '*' (a ++ ('*' :: '*' :: '/' :: suf)) = 2 := by
    simp [List.count_append, List.count_cons, hca, hcs]
  rw [h1, h2] at hcnt
  omega

/-- Claim C3 counterexample: the double-star branch of `matchesPattern`
is guarded by containment of the four-character sequence `**/*`, so a
pattern `src/**/main.js` — whose suffix does not start with `*` — never
reaches it. The spec's example `matches("src/a/b/main.js", "src/**/main.js")`
is false in the code even though the filename starts with the prefix and
ends with the exact suffix; the same filename does match `src/**/*.js`. -/
theorem matchesPattern_plain_suffix_counterexample :
    matchesPattern "src/a/b/main.js" "src/**/main.js" = false ∧
    ("src/".data.isPrefixOf "src/a/b/main.js".data) = true ∧
    ("main.js".data.isSuffixOf "src/a/b/main.js".data) = true ∧
    matchesPattern "src/a/b/main.js" "src/**/*.js" = true :=
  ⟨rfl, rfl, rfl, rfl⟩

/-- Claim C3 amended: for `pre/**/suffix` patterns (star-free `pre`), the
matcher implements the specified semantics only when the suffix begins with
`*`: with suffix `*` it matches exactly the filenames starting with `pre`,
and with suffix `*.ext` exactly those starting with `pre` and ending in
`.ext`. A suffix not beginning with `*` (e.g. `main.js`) never takes this
branch: such a pattern matches only a filename equal to the whole literal
pattern string, not filenames merely ending in the suffix. -/
theorem matchesPattern_doublestar_branch (f a ext suf : List Char)
    (ha : '*' ∉ a) (hext : '*' ∉ ext) (hsuf : '*' ∉ suf) :
    (matchesPatternL f (a ++ ['*', '*', '/', '*']) = a.isPrefixOf f) ∧
    (matchesPatternL f (a ++ ('*' :: '*' :: '/' :: '*' :: '.' :: ext)) =
      (a.isPrefixOf f && ('.' :: ext).isSuffixOf f)) ∧
    (matchesPatternL f (a ++ ('*' :: '*' :: '/' :: suf)) =
      decide (f = a ++ ('*' :: '*' :: '/' :: suf))) := by
  refine ⟨?_, ?_, ?_⟩
  · by_cases hpf : a ++ ['*', '*', '/', '*'] = f
    · subst hpf
      unfold matchesPatternL
      rw [if_pos rfl]
      have hap : a.isPrefixOf (a ++ ['*', '*', '/', '*']) = true := by simp
      rw [hap]
    · unfold matchesPatternL
      rw [if_neg hpf]
      rw [if_neg (by
        intro h
        have := congrArg List.length h
        simp [List.length_append] at this)]
      rw [if_neg (by
        intro h
        rw [List.isPrefixOf_iff_prefix] at h
        exact star_dot_not_prefix a _ ha h)]
      rw [if_pos (by
        simp only [jsIncludes, decide_eq_true_eq]
        exact ⟨a, [], by simp⟩)]
      rw [jsSplitL_pat_star a ha]
      cases hap : a.isPrefixOf f <;> simp [hap]
  · by_cases hpf : a ++ ('*' :: '*' :: '/' :: '*' :: '.' :: ext) = f
    · subst hpf
      unfold matchesPatternL
      rw [if_pos rfl]
      have hap : a.isPrefixOf (a ++ ('*' :: '*' :: '/' :: '*' :: '.' :: ext)) = true := by simp
      have hsf : ('.' :: ext).isSuffixOf (a ++ ('*' :: '*' :: '/' :: '*' :: '.' :: ext)) = true := by
        have hs : ('.' :: ext) <:+ (a ++ ('*' :: '*' :: '/' :: '*' :: '.' :: ext)) :=
          ⟨a ++ ['*', '*', '/', '*'], by simp⟩
        simpa using hs
      rw [hap, hsf]
      rfl
    · unfold matchesPatternL
      rw [if_neg hpf]
      rw [if_neg (by
        intro h
        have := congrArg List.length h
        simp [List.length_append] at this
        all_goals omega)]
      rw [if_neg (by
        intro h
        rw [List.isPrefixOf_iff_prefix] at h
        exact star_dot_not_prefix a _ ha h)]
      rw [if_pos (by
        simp only [jsIncludes, decide_eq_true_eq]
        exact ⟨a, '.' :: ext, by simp⟩)]
      rw [jsSplitL_pat_star_dot a ext ha hext]
      cases hap : a.isPrefixOf f <;> simp [hap, List.isPrefixOf]
  · by_cases hpf : a ++ ('*' :: '*' :: '/' :: suf) = f
    · subst hpf
      unfold matchesPatternL
      rw [if_pos rfl]
      simp
    · unfold matchesPatternL
      rw [if_neg hpf]
      rw [if_neg (by
        intro h
        have := congrArg List.length h
        simp [List.length_append] at this
        all_goals omega)]
      rw [if_neg (by
        intro h
        rw [List.isPrefixOf_iff_prefix] at h
        exact star_dot_not_prefix a _ ha h)]
      rw [if_neg (by
        simp only [jsIncludes, decide_eq_true_eq]
        exact not_infix_dblstar_star a suf ha hsuf)]
      rw [if_neg (by
        have hdd : jsIncludes (a ++ ('*' :: '*' :: '/' :: suf)) ['*', '*'] = true := by
          simp only [jsIncludes, decide_eq_true_eq]
          exact ⟨a, '/' :: suf, by simp⟩
        simp [hdd])]

/-- Claim C3 amended witness: the three branch behaviors at concrete
inputs: `src/**/*` matches by prefix, `src/**/*.js` by prefix and
extension, and `src/**/main.js` only by literal equality — so it rejects
`src/a/b/main.js`. -/
theorem matchesPattern_doublestar_branch_witness :
    (matchesPatternL "src/a/b/main.js".data ("src/".data ++ ['*', '*', '/', '*']) =
      ("src/".data.isPrefixOf "src/a/b/main.js".data)) ∧
    (matchesPatternL "src/a/b/main.js".data
        ("src/".data ++ ('*' :: '*' :: '/' :: '*' :: '.' :: "js".data)) =
      (("src/".data.isPrefixOf "src/a/b/main.js".data) &&
        ('.' :: "js".data).isSuffixOf "src/a/b/main.js".data)) ∧
    (matchesPatternL "src/a/b/main.js".data
        ("src/".data ++ ('*' :: '*' :: '/' :: "main.js".data)) =
      decide ("src/a/b/main.js".data = "src/".data ++ ('*' :: '*' :: '/' :: "main.js".data))) := by
  have h := matchesPattern_doublestar_branch "src/a/b/main.js".data "src/".data
    "js".data "main.js".data (by decide) (by decide) (by decide)
  exact ⟨h.1, h.2.1, h.2.2⟩

end SDB
